import Mathlib

/-!
Shallow embedding of `python/ee/cli/utils.py` (Earth Engine CLI support
utilities): the configuration store (`CommandLineConfig`), the single-task
waiter (`wait_for_task`) and the multi-task waiter (`wait_for_tasks`).

Modelling conventions:
* Time is modelled by rationals (`ℚ`) and, following the idealized timing
  model, advances only by the `time.sleep` calls: the status fetch performed
  at the top of iteration `n` happens at the elapsed time accumulated by the
  sleeps of the previous iterations.
* The remote service `ee.data.getTaskStatus` is an oracle: for the
  single-task waiter it is a function `ℚ → TaskStatus` giving the status
  fetched at a given elapsed time; for the bulk call of the multi-task
  waiter it is a function `List String → List TaskStatus`.
* Console output (`print` calls) is reified as a list of `OutputLine`
  values, one per `print` call, carrying exactly the data interpolated into
  the printed string.
* The `while True` loop is embedded with explicit fuel; `fuelFor` computes
  enough fuel, and `waitLoop_isSome` proves that this fuel always suffices,
  so `wait_for_task` never returns `none`.
* The file system and process environment are an explicit `FileSystem`
  record (environment variables, file existence, parsed JSON contents, home
  directory), and a parsed JSON config file is an association list of
  string keys to string values.
* Python functions that can only exit by returning are total Lean
  functions: no exception is modelled because the embedded code paths raise
  none (all fetches are assumed to succeed, as the oracle is total).
-/

/-- States of `ee.batch.Task.State` used by the CLI: the three terminal
states named in `TASK_FINISHED_STATES` plus non-terminal ones. -/
inductive TaskState
  | COMPLETED
  | FAILED
  | CANCELLED
  | READY
  | RUNNING
  deriving DecidableEq

/-- One record returned by `ee.data.getTaskStatus`: a state and an optional
`error_message` (absent keys are `none`, as in `status.get('error_message',
None)`). -/
structure TaskStatus where
  state : TaskState
  error_message : Option String
  deriving DecidableEq

/-- `TASK_FINISHED_STATES` from utils.py line 34. -/
def TASK_FINISHED_STATES : List TaskState :=
  [TaskState.COMPLETED, TaskState.FAILED, TaskState.CANCELLED]

/-- One `print` call of the waiters, carrying the interpolated data:
completion line, error line, progress line, timeout line (single-task
waiter), and the summary block of the multi-task waiter (header print plus
the four counter prints). -/
inductive OutputLine
  | completion (task_id : String) (state : TaskState) (elapsed : ℚ)
  | errorLine (msg : String)
  | progress (task_id : String) (state : TaskState) (elapsed : ℚ)
  | timeoutLine (task_id : String) (elapsed : ℚ)
  | summaryHeader
  | summaryCompleted (n : Nat)
  | summaryFailed (n : Nat)
  | summaryCancelled (n : Nat)
  | summaryIncomplete (n : Int)
  deriving DecidableEq

/-- The `while True` loop of `wait_for_task` (utils.py lines 105-124), with
explicit fuel. State: `elapsed` (the current value of `time.time() - start`,
advanced only by the sleeps) and `last_check` (time of the last progress
log). Returns the emitted lines and the list of elapsed times at which a
status fetch was performed; `none` when the fuel runs out. -/
def waitLoop (fetch : ℚ → TaskStatus) (task_id : String) (timeout : ℚ)
    (log_progress : Bool) :
    Nat → ℚ → ℚ → Option (List OutputLine × List ℚ)
  | 0, _, _ => none
  | fuel + 1, elapsed, last_check =>
    let status := fetch elapsed
    let state := status.state
    if state ∈ TASK_FINISHED_STATES then
      some (OutputLine.completion task_id state elapsed ::
        (match status.error_message with
          | some msg =>
            if msg != "" then [OutputLine.errorLine msg] else []
          | none => []), [elapsed])
    else
      let progressOut : List OutputLine :=
        if log_progress ∧ 30 ≤ elapsed - last_check then
          [OutputLine.progress task_id state elapsed]
        else []
      let last_check' : ℚ :=
        if log_progress ∧ 30 ≤ elapsed - last_check then elapsed else last_check
      let remaining := timeout - elapsed
      if 0 < remaining then
        match waitLoop fetch task_id timeout log_progress fuel
            (elapsed + min 10 remaining) last_check' with
        | some (out, polls) => some (progressOut ++ out, elapsed :: polls)
        | none => none
      else
        some (progressOut ++ [OutputLine.timeoutLine task_id elapsed], [elapsed])

/-- Fuel sufficient for `waitLoop` to reach the timeout (proved by
`waitLoop_isSome`). -/
def fuelFor (timeout : ℚ) : Nat := (⌈timeout⌉).toNat + 2

/-- `wait_for_task` (utils.py lines 100-125): starts the loop at
`elapsed = 0`, `last_check = 0`. -/
def wait_for_task (fetch : ℚ → TaskStatus) (task_id : String) (timeout : ℚ)
    (log_progress : Bool := true) : Option (List OutputLine × List ℚ) :=
  waitLoop fetch task_id timeout log_progress (fuelFor timeout) 0 0

/-- `status_counts[state]` of `wait_for_tasks`: the number of statuses in
the bulk result whose `state` equals the given one (the `defaultdict(int)`
tally read back at one key). -/
def countState (status_list : List TaskStatus) (s : TaskState) : Nat :=
  status_list.countP (fun st => st.state == s)

/-- `wait_for_tasks` (utils.py lines 128-155). A single-element list
delegates to `wait_for_task` and returns. Otherwise one worker per task id
runs the full `wait_for_task` algorithm (their printed lines are collected
in list order; the real threads interleave them, which no claim depends
on), then one bulk `ee.data.getTaskStatus(task_id_list)` call is tallied
into the summary block. -/
def wait_for_tasks (fetchOf : String → ℚ → TaskStatus)
    (getTaskStatusList : List String → List TaskStatus)
    (task_id_list : List String) (timeout : ℚ)
    (log_progress : Bool := false) : Option (List OutputLine) :=
  match task_id_list with
  | [task_id] =>
    (wait_for_task (fetchOf task_id) task_id timeout log_progress).map Prod.fst
  | _ =>
    (task_id_list.mapM (fun task_id =>
        (wait_for_task (fetchOf task_id) task_id timeout log_progress).map
          Prod.fst)).map
      (fun worker_outputs =>
        let status_list := getTaskStatusList task_id_list
        let completed := countState status_list TaskState.COMPLETED
        let failed := countState status_list TaskState.FAILED
        let cancelled := countState status_list TaskState.CANCELLED
        let num_incomplete : Int :=
          (status_list.length : Int) - completed - failed - cancelled
        worker_outputs.flatten ++
          [OutputLine.summaryHeader,
           OutputLine.summaryCompleted completed,
           OutputLine.summaryFailed failed,
           OutputLine.summaryCancelled cancelled,
           OutputLine.summaryIncomplete num_incomplete])

/-- `EE_CONFIG_FILE` (utils.py line 21): the environment variable name. -/
def EE_CONFIG_FILE : String := "EE_CONFIG_FILE"

/-- `DEFAULT_EE_CONFIG_FILE_RELATIVE` (utils.py lines 22-23). -/
def DEFAULT_EE_CONFIG_FILE_RELATIVE : String := ".config/earthengine/credentials"

/-- `DEFAULT_EE_CONFIG_FILE` (utils.py lines 24-25), as a function of the
home directory (`os.path.expanduser('~')`). -/
def DEFAULT_EE_CONFIG_FILE (homedir : String) : String :=
  homedir ++ "/" ++ DEFAULT_EE_CONFIG_FILE_RELATIVE

/-- `CONFIG_PARAMS` (utils.py lines 27-32): parameter names with their
built-in defaults, in dict insertion order. -/
def CONFIG_PARAMS : List (String × Option String) :=
  [("url", some "https://earthengine.googleapis.com"),
   ("account", none),
   ("private_key", none),
   ("refresh_token", none)]

/-- A parsed JSON config file: an association list of string keys to string
values (the schema of section 6 of the spec; a JSON object with string
values). -/
abbrev ConfigFileContent : Type := List (String × String)

/-- Lookup of a key in parsed JSON content (a Python dict read). -/
def jsonGet (config : ConfigFileContent) (key : String) : Option String :=
  (List.find? (fun kv => kv.1 == key) config).map (fun kv => kv.2)

/-- `config.get(key, default_value)` of utils.py line 59. -/
def configGet (config : ConfigFileContent) (key : String)
    (default_value : Option String) : Option String :=
  match jsonGet config key with
  | some v => some v
  | none => default_value

/-- The ambient process state read by `CommandLineConfig.__init__`:
`os.environ.get`, `os.path.exists`, `json.load(open(...))` for existing
paths, and `os.path.expanduser('~')`. -/
structure FileSystem where
  environ : String → Option String
  pathExists : String → Bool
  readJson : String → ConfigFileContent
  homedir : String

/-- The `CommandLineConfig` object after `__init__`: the resolved
`config_file` path plus one attribute per `CONFIG_PARAMS` key. -/
structure CommandLineConfig where
  config_file : String
  url : Option String
  account : Option String
  private_key : Option String
  refresh_token : Option String
  deriving DecidableEq

/-- The `for key, default_value in CONFIG_PARAMS.items()` loop of
`__init__` (utils.py lines 58-59), applied to the parsed content of the
resolved file (`{}` when the file does not exist). -/
def CommandLineConfig.mkFrom (config_file : String)
    (config : ConfigFileContent) : CommandLineConfig :=
  { config_file := config_file
    url := configGet config "url" (some "https://earthengine.googleapis.com")
    account := configGet config "account" none
    private_key := configGet config "private_key" none
    refresh_token := configGet config "refresh_token" none }

/-- `CommandLineConfig.__init__` (utils.py lines 50-59). The argument is
`Option String` (`None` by default); `if not config_file:` is Python
truthiness, so both `none` and the empty string fall back to
`os.environ.get(EE_CONFIG_FILE, DEFAULT_EE_CONFIG_FILE)`. -/
def CommandLineConfig.init (fs : FileSystem)
    (config_file_arg : Option String := none) : CommandLineConfig :=
  let config_file :=
    if config_file_arg.getD "" = "" then
      (fs.environ EE_CONFIG_FILE).getD (DEFAULT_EE_CONFIG_FILE fs.homedir)
    else
      config_file_arg.getD ""
  let config : ConfigFileContent :=
    if fs.pathExists config_file then fs.readJson config_file else []
  CommandLineConfig.mkFrom config_file config

/-- `getattr(self, key)` for the `CONFIG_PARAMS` keys (utils.py line 77). -/
def CommandLineConfig.getParamAttr (c : CommandLineConfig)
    (key : String) : Option String :=
  if key = "url" then c.url
  else if key = "account" then c.account
  else if key = "private_key" then c.private_key
  else if key = "refresh_token" then c.refresh_token
  else none

/-- `CommandLineConfig.save` (utils.py lines 74-81): the JSON object written
to `self.config_file`, holding exactly the parameters whose value
`is not None`, in `CONFIG_PARAMS` iteration order. -/
def CommandLineConfig.save (c : CommandLineConfig) : ConfigFileContent :=
  (CONFIG_PARAMS.map Prod.fst).filterMap
    (fun key => (c.getParamAttr key).map (fun v => (key, v)))

/-- Python truthiness of an optional string attribute: `None` and the empty
string are falsy (`if self.account and self.private_key`, utils.py line
63). -/
def truthy : Option String → Bool
  | none => false
  | some s => s != ""

/-- The credentials object built by `ee_init` (utils.py lines 63-71):
`ee.ServiceAccountCredentials(account, private_key)`,
`oauth2client.client.OAuth2Credentials(None, CLIENT_ID, CLIENT_SECRET,
refresh_token, None, token_uri, None)` with its seven positional arguments,
or the `'persistent'` sentinel. -/
inductive Credentials
  | serviceAccount (account private_key : Option String)
  | oauth2 (access_token : Option String) (client_id : String)
      (client_secret : String) (refresh_token : Option String)
      (token_expiry : Option String) (token_uri : String)
      (user_agent : Option String)
  | persistent
  deriving DecidableEq

/-- `CommandLineConfig.ee_init` (utils.py lines 61-72): selects the
credential strategy and calls `ee.Initialize(credentials=...,
opt_url=self.url)`; the result models that call's two arguments.
`CLIENT_ID`/`CLIENT_SECRET` are `ee.oauth.CLIENT_ID`/`ee.oauth.CLIENT_SECRET`,
constants of the `ee` package outside this module, passed as parameters. -/
def CommandLineConfig.ee_init (c : CommandLineConfig)
    (CLIENT_ID CLIENT_SECRET : String) : Credentials × Option String :=
  let credentials :=
    if truthy c.account && truthy c.private_key then
      Credentials.serviceAccount c.account c.private_key
    else if truthy c.refresh_token then
      Credentials.oauth2 none CLIENT_ID CLIENT_SECRET c.refresh_token none
        "https://accounts.google.com/o/oauth2/token" none
    else
      Credentials.persistent
  (credentials, c.url)

/-- Lines of the summary block of `wait_for_tasks`. -/
def isSummaryLine : OutputLine → Bool
  | OutputLine.summaryHeader => true
  | OutputLine.summaryCompleted _ => true
  | OutputLine.summaryFailed _ => true
  | OutputLine.summaryCancelled _ => true
  | OutputLine.summaryIncomplete _ => true
  | _ => false

/-- Progress lines of the single-task waiter. -/
def isProgressLine : OutputLine → Bool
  | OutputLine.progress _ _ _ => true
  | _ => false

/-- The elapsed time a line reports, for the lines that report one. -/
def lineTime : OutputLine → Option ℚ
  | OutputLine.completion _ _ e => some e
  | OutputLine.progress _ _ e => some e
  | OutputLine.timeoutLine _ e => some e
  | _ => none

/-- The completion report of `wait_for_task` at a poll performed at elapsed
time `e`: the completion line followed by the error line exactly when the
fetched status carries a truthy — non-null and non-empty — `error_message`
(utils.py lines 110-115; `if error_message:` on line 113 is Python
truthiness, so an empty-string message prints no error line). -/
def completionReport (fetch : ℚ → TaskStatus) (task_id : String) (e : ℚ) :
    List OutputLine :=
  OutputLine.completion task_id (fetch e).state e ::
    (match (fetch e).error_message with
      | some msg =>
        if msg != "" then [OutputLine.errorLine msg] else []
      | none => [])

/-- Elapsed times carried by the progress lines of an output, in order. -/
def progressTimes : List OutputLine → List ℚ :=
  List.filterMap (fun l => match l with
    | OutputLine.progress _ _ e => some e
    | _ => none)

/-- The progress-log cadence: from a last-log clock value, keep exactly the
times at least 30 seconds past the clock, resetting the clock at each kept
time (the guard of utils.py line 116). -/
def progressFilter (last_check : ℚ) : List ℚ → List ℚ
  | [] => []
  | t :: ts =>
    if 30 ≤ t - last_check then t :: progressFilter t ts
    else progressFilter last_check ts

/-- Consecutive separation by at least 30 seconds, counting from a start
clock. -/
def sep30 : ℚ → List ℚ → Bool
  | _, [] => true
  | last, t :: ts => decide (last + 30 ≤ t) && sep30 t ts

lemma sep30_progressFilter : ∀ (ts : List ℚ) (lc : ℚ),
    sep30 lc (progressFilter lc ts) = true := by
  intro ts
  induction ts with
  | nil => intro lc; rfl
  | cons t ts ih =>
    intro lc
    by_cases hc : 30 ≤ t - lc
    · simp only [progressFilter, if_pos hc, sep30, ih t, Bool.and_true,
        decide_eq_true_eq]
      linarith
    · simp only [progressFilter, if_neg hc, ih lc]

lemma waitLoop_succ (fetch : ℚ → TaskStatus) (task_id : String)
    (timeout : ℚ) (log_progress : Bool) (fuel : Nat)
    (elapsed last_check : ℚ) :
    waitLoop fetch task_id timeout log_progress (fuel + 1) elapsed last_check =
      if (fetch elapsed).state ∈ TASK_FINISHED_STATES then
        some (OutputLine.completion task_id (fetch elapsed).state elapsed ::
          (match (fetch elapsed).error_message with
            | some msg =>
              if msg != "" then [OutputLine.errorLine msg] else []
            | none => []), [elapsed])
      else if 0 < timeout - elapsed then
        match waitLoop fetch task_id timeout log_progress fuel
            (elapsed + min 10 (timeout - elapsed))
            (if log_progress ∧ 30 ≤ elapsed - last_check then elapsed
              else last_check) with
        | some (out, polls) =>
          some ((if log_progress ∧ 30 ≤ elapsed - last_check then
              [OutputLine.progress task_id (fetch elapsed).state elapsed]
            else []) ++ out, elapsed :: polls)
        | none => none
      else
        some ((if log_progress ∧ 30 ≤ elapsed - last_check then
            [OutputLine.progress task_id (fetch elapsed).state elapsed]
          else []) ++ [OutputLine.timeoutLine task_id elapsed], [elapsed]) :=
  rfl

lemma waitLoop_isSome (fetch : ℚ → TaskStatus) (task_id : String)
    (timeout : ℚ) (log_progress : Bool) :
    ∀ (n : Nat) (elapsed last_check : ℚ), timeout - elapsed ≤ 10 * n →
      (waitLoop fetch task_id timeout log_progress (n + 2) elapsed
        last_check).isSome := by
  intro n
  induction n with
  | zero =>
    intro elapsed last_check h
    have hrem : ¬ (0 < timeout - elapsed) := by push_cast at h; linarith
    have h2 : (0 : ℕ) + 2 = 1 + 1 := rfl
    rw [h2, waitLoop_succ]
    by_cases hterm : (fetch elapsed).state ∈ TASK_FINISHED_STATES
    · rw [if_pos hterm]; rfl
    · rw [if_neg hterm, if_neg hrem]; rfl
  | succ n ih =>
    intro elapsed last_check h
    have h2 : n + 1 + 2 = (n + 2) + 1 := rfl
    rw [h2, waitLoop_succ]
    by_cases hterm : (fetch elapsed).state ∈ TASK_FINISHED_STATES
    · rw [if_pos hterm]; rfl
    · rw [if_neg hterm]
      by_cases hrem : 0 < timeout - elapsed
      · rw [if_pos hrem]
        have hbound : timeout - (elapsed + min 10 (timeout - elapsed)) ≤ 10 * n := by
          rcases le_total (timeout - elapsed) 10 with h10 | h10
          · rw [min_eq_right h10]
            push_cast at h ⊢
            linarith
          · rw [min_eq_left h10]
            push_cast at h ⊢
            linarith
        have hrec := ih (elapsed + min 10 (timeout - elapsed))
          (if log_progress ∧ 30 ≤ elapsed - last_check then elapsed
            else last_check) hbound
        rw [Option.isSome_iff_exists] at hrec
        obtain ⟨⟨out, polls⟩, hout⟩ := hrec
        rw [hout]
        rfl
      · rw [if_neg hrem]; rfl

lemma waitLoop_time_bound (fetch : ℚ → TaskStatus) (task_id : String)
    (timeout : ℚ) (log_progress : Bool) :
    ∀ (fuel : Nat) (elapsed last_check : ℚ) (out : List OutputLine)
      (polls : List ℚ),
      waitLoop fetch task_id timeout log_progress fuel elapsed last_check =
        some (out, polls) →
      ∀ l ∈ out, ∀ x, lineTime l = some x →
        elapsed ≤ x ∧ x ≤ max elapsed timeout := by
  intro fuel
  induction fuel with
  | zero =>
    intro elapsed last_check out polls h
    exact absurd h (by simp [waitLoop])
  | succ fuel ih =>
    intro elapsed last_check out polls h
    rw [waitLoop_succ] at h
    by_cases hterm : (fetch elapsed).state ∈ TASK_FINISHED_STATES
    · rw [if_pos hterm] at h
      simp only [Option.some.injEq, Prod.mk.injEq] at h
      obtain ⟨rfl, rfl⟩ := h
      intro l hl x hx
      rcases List.mem_cons.mp hl with rfl | hl'
      · simp only [lineTime, Option.some.injEq] at hx
        subst hx
        exact ⟨le_rfl, le_max_left _ _⟩
      · rcases herr : (fetch elapsed).error_message with _ | msg <;>
          rw [herr] at hl'
        · simp at hl'
        · by_cases hm : (msg != "") = true <;> simp [hm] at hl'
          subst hl'
          simp [lineTime] at hx
    · rw [if_neg hterm] at h
      by_cases hrem : 0 < timeout - elapsed
      · rw [if_pos hrem] at h
        rcases hrec : waitLoop fetch task_id timeout log_progress fuel
            (elapsed + min 10 (timeout - elapsed))
            (if log_progress ∧ 30 ≤ elapsed - last_check then elapsed
              else last_check) with _ | p
        · rw [hrec] at h
          exact absurd h (by simp)
        · obtain ⟨out', polls'⟩ := p
          rw [hrec] at h
          simp only [Option.some.injEq, Prod.mk.injEq] at h
          obtain ⟨rfl, rfl⟩ := h
          intro l hl x hx
          rcases List.mem_append.mp hl with hpro | hmem
          · by_cases hc : log_progress ∧ 30 ≤ elapsed - last_check
            · rw [if_pos hc] at hpro
              simp only [List.mem_singleton] at hpro
              subst hpro
              simp only [lineTime, Option.some.injEq] at hx
              subst hx
              exact ⟨le_rfl, le_max_left _ _⟩
            · rw [if_neg hc] at hpro
              simp at hpro
          · have hmin : 0 < min 10 (timeout - elapsed) :=
              lt_min (by norm_num) hrem
            have hstep : elapsed + min 10 (timeout - elapsed) ≤ timeout := by
              have := min_le_right (10 : ℚ) (timeout - elapsed)
              linarith
            have hb := ih _ _ _ _ hrec l hmem x hx
            refine ⟨by linarith [hb.1], ?_⟩
            have hmax : max (elapsed + min 10 (timeout - elapsed)) timeout
                = timeout := max_eq_right hstep
            have h2 := hb.2
            rw [hmax] at h2
            exact h2.trans (le_max_right _ _)
      · rw [if_neg hrem] at h
        simp only [Option.some.injEq, Prod.mk.injEq] at h
        obtain ⟨rfl, rfl⟩ := h
        intro l hl x hx
        rcases List.mem_append.mp hl with hpro | hmem
        · by_cases hc : log_progress ∧ 30 ≤ elapsed - last_check
          · rw [if_pos hc] at hpro
            simp only [List.mem_singleton] at hpro
            subst hpro
            simp only [lineTime, Option.some.injEq] at hx
            subst hx
            exact ⟨le_rfl, le_max_left _ _⟩
          · rw [if_neg hc] at hpro
            simp at hpro
        · simp only [List.mem_singleton] at hmem
          subst hmem
          simp only [lineTime, Option.some.injEq] at hx
          subst hx
          exact ⟨le_rfl, le_max_left _ _⟩

lemma waitLoop_shape (fetch : ℚ → TaskStatus) (task_id : String)
    (timeout : ℚ) (log_progress : Bool) :
    ∀ (fuel : Nat) (elapsed last_check : ℚ) (out : List OutputLine)
      (polls : List ℚ),
      waitLoop fetch task_id timeout log_progress fuel elapsed last_check =
        some (out, polls) →
      ∃ pro fin, out = pro ++ fin ∧ (∀ l ∈ pro, isProgressLine l = true) ∧
        ((∃ e, (fetch e).state ∈ TASK_FINISHED_STATES ∧
            fin = completionReport fetch task_id e) ∨
          ∃ e, fin = [OutputLine.timeoutLine task_id e]) := by
  intro fuel
  induction fuel with
  | zero =>
    intro elapsed last_check out polls h
    exact absurd h (by simp [waitLoop])
  | succ fuel ih =>
    intro elapsed last_check out polls h
    rw [waitLoop_succ] at h
    by_cases hterm : (fetch elapsed).state ∈ TASK_FINISHED_STATES
    · rw [if_pos hterm] at h
      simp only [Option.some.injEq, Prod.mk.injEq] at h
      obtain ⟨rfl, rfl⟩ := h
      exact ⟨[], completionReport fetch task_id elapsed, rfl, by simp,
        Or.inl ⟨elapsed, hterm, rfl⟩⟩
    · rw [if_neg hterm] at h
      by_cases hrem : 0 < timeout - elapsed
      · rw [if_pos hrem] at h
        rcases hrec : waitLoop fetch task_id timeout log_progress fuel
            (elapsed + min 10 (timeout - elapsed))
            (if log_progress ∧ 30 ≤ elapsed - last_check then elapsed
              else last_check) with _ | p
        · rw [hrec] at h
          exact absurd h (by simp)
        · obtain ⟨out', polls'⟩ := p
          rw [hrec] at h
          simp only [Option.some.injEq, Prod.mk.injEq] at h
          obtain ⟨rfl, rfl⟩ := h
          obtain ⟨pro', fin', rfl, hpro', hfin'⟩ := ih _ _ _ _ hrec
          refine ⟨(if log_progress ∧ 30 ≤ elapsed - last_check then
              [OutputLine.progress task_id (fetch elapsed).state elapsed]
            else []) ++ pro', fin', by rw [List.append_assoc], ?_, hfin'⟩
          intro l hl
          rcases List.mem_append.mp hl with hp | hp
          · by_cases hc : log_progress ∧ 30 ≤ elapsed - last_check
            · rw [if_pos hc] at hp
              simp only [List.mem_singleton] at hp
              subst hp
              rfl
            · rw [if_neg hc] at hp
              simp at hp
          · exact hpro' l hp
      · rw [if_neg hrem] at h
        simp only [Option.some.injEq, Prod.mk.injEq] at h
        obtain ⟨rfl, rfl⟩ := h
        refine ⟨(if log_progress ∧ 30 ≤ elapsed - last_check then
            [OutputLine.progress task_id (fetch elapsed).state elapsed]
          else []), [OutputLine.timeoutLine task_id elapsed], rfl, ?_,
          Or.inr ⟨elapsed, rfl⟩⟩
        intro l hl
        by_cases hc : log_progress ∧ 30 ≤ elapsed - last_check
        · rw [if_pos hc] at hl
          simp only [List.mem_singleton] at hl
          subst hl
          rfl
        · rw [if_neg hc] at hl
          simp at hl

lemma waitLoop_progress_off (fetch : ℚ → TaskStatus) (task_id : String)
    (timeout : ℚ) :
    ∀ (fuel : Nat) (elapsed last_check : ℚ) (out : List OutputLine)
      (polls : List ℚ),
      waitLoop fetch task_id timeout false fuel elapsed last_check =
        some (out, polls) →
      progressTimes out = [] := by
  intro fuel
  induction fuel with
  | zero =>
    intro elapsed last_check out polls h
    exact absurd h (by simp [waitLoop])
  | succ fuel ih =>
    intro elapsed last_check out polls h
    rw [waitLoop_succ] at h
    have hc : ¬ ((false : Bool) ∧ 30 ≤ elapsed - last_check) := by simp
    by_cases hterm : (fetch elapsed).state ∈ TASK_FINISHED_STATES
    · rw [if_pos hterm] at h
      simp only [Option.some.injEq, Prod.mk.injEq] at h
      obtain ⟨rfl, rfl⟩ := h
      rcases herr : (fetch elapsed).error_message with _ | msg
      · simp [herr, progressTimes]
      · by_cases hm : (msg != "") = true <;>
          simp [herr, hm, progressTimes]
    · rw [if_neg hterm] at h
      by_cases hrem : 0 < timeout - elapsed
      · rw [if_pos hrem] at h
        rcases hrec : waitLoop fetch task_id timeout false fuel
            (elapsed + min 10 (timeout - elapsed))
            (if (false : Bool) ∧ 30 ≤ elapsed - last_check then elapsed
              else last_check) with _ | p
        · rw [hrec] at h
          exact absurd h (by simp)
        · obtain ⟨out', polls'⟩ := p
          rw [hrec] at h
          simp only [Option.some.injEq, Prod.mk.injEq] at h
          obtain ⟨rfl, rfl⟩ := h
          rw [if_neg hc]
          simpa [progressTimes] using
            (by simpa [progressTimes] using ih _ _ _ _ hrec)
      · rw [if_neg hrem] at h
        simp only [Option.some.injEq, Prod.mk.injEq] at h
        obtain ⟨rfl, rfl⟩ := h
        rw [if_neg hc]
        simp [progressTimes]

lemma waitLoop_progressTimes (fetch : ℚ → TaskStatus) (task_id : String)
    (timeout : ℚ) :
    ∀ (fuel : Nat) (elapsed last_check : ℚ) (out : List OutputLine)
      (polls : List ℚ),
      waitLoop fetch task_id timeout true fuel elapsed last_check =
        some (out, polls) →
      progressTimes out =
        progressFilter last_check
          (polls.filter
            (fun t => !(decide ((fetch t).state ∈ TASK_FINISHED_STATES)))) := by
  intro fuel
  induction fuel with
  | zero =>
    intro elapsed last_check out polls h
    exact absurd h (by simp [waitLoop])
  | succ fuel ih =>
    intro elapsed last_check out polls h
    rw [waitLoop_succ] at h
    by_cases hterm : (fetch elapsed).state ∈ TASK_FINISHED_STATES
    · rw [if_pos hterm] at h
      simp only [Option.some.injEq, Prod.mk.injEq] at h
      obtain ⟨rfl, rfl⟩ := h
      rcases herr : (fetch elapsed).error_message with _ | msg
      · simp [herr, progressTimes, hterm, progressFilter]
      · by_cases hm : (msg != "") = true <;>
          simp [herr, hm, progressTimes, hterm, progressFilter]
    · rw [if_neg hterm] at h
      have hkeep : (!(decide ((fetch elapsed).state ∈ TASK_FINISHED_STATES)))
          = true := by simp [hterm]
      by_cases hrem : 0 < timeout - elapsed
      · rw [if_pos hrem] at h
        rcases hrec : waitLoop fetch task_id timeout true fuel
            (elapsed + min 10 (timeout - elapsed))
            (if (true : Bool) ∧ 30 ≤ elapsed - last_check then elapsed
              else last_check) with _ | p
        · rw [hrec] at h
          exact absurd h (by simp)
        · obtain ⟨out', polls'⟩ := p
          rw [hrec] at h
          simp only [Option.some.injEq, Prod.mk.injEq] at h
          obtain ⟨rfl, rfl⟩ := h
          have hih := ih _ _ _ _ hrec
          simp only [eq_self_iff_true, true_and] at hih ⊢
          rw [List.filter_cons, hkeep]
          simp only [if_true]
          by_cases hc : 30 ≤ elapsed - last_check
          · rw [if_pos hc] at hih
            rw [if_pos hc]
            simp only [progressFilter]
            rw [if_pos hc, ← hih]
            simp [progressTimes]
          · rw [if_neg hc] at hih
            rw [if_neg hc]
            simp only [progressFilter]
            rw [if_neg hc, ← hih]
            simp [progressTimes]
      · rw [if_neg hrem] at h
        simp only [Option.some.injEq, Prod.mk.injEq] at h
        obtain ⟨rfl, rfl⟩ := h
        simp only [eq_self_iff_true, true_and]
        rw [List.filter_cons, hkeep]
        simp only [if_true, List.filter_nil]
        by_cases hc : 30 ≤ elapsed - last_check
        · rw [if_pos hc]
          simp only [progressFilter]
          rw [if_pos hc]
          simp [progressTimes, progressFilter]
        · rw [if_neg hc]
          simp only [progressFilter]
          rw [if_neg hc]
          simp [progressTimes, progressFilter]

lemma waitLoop_no_summary (fetch : ℚ → TaskStatus) (task_id : String)
    (timeout : ℚ) (log_progress : Bool) :
    ∀ (fuel : Nat) (elapsed last_check : ℚ) (out : List OutputLine)
      (polls : List ℚ),
      waitLoop fetch task_id timeout log_progress fuel elapsed last_check =
        some (out, polls) →
      ∀ l ∈ out, isSummaryLine l = false := by
  intro fuel
  induction fuel with
  | zero =>
    intro elapsed last_check out polls h
    exact absurd h (by simp [waitLoop])
  | succ fuel ih =>
    intro elapsed last_check out polls h
    rw [waitLoop_succ] at h
    by_cases hterm : (fetch elapsed).state ∈ TASK_FINISHED_STATES
    · rw [if_pos hterm] at h
      simp only [Option.some.injEq, Prod.mk.injEq] at h
      obtain ⟨rfl, rfl⟩ := h
      intro l hl
      rcases List.mem_cons.mp hl with rfl | hl'
      · rfl
      · rcases herr : (fetch elapsed).error_message with _ | msg <;>
          rw [herr] at hl'
        · simp at hl'
        · by_cases hm : (msg != "") = true <;> simp [hm] at hl'
          subst hl'
          rfl
    · rw [if_neg hterm] at h
      by_cases hrem : 0 < timeout - elapsed
      · rw [if_pos hrem] at h
        rcases hrec : waitLoop fetch task_id timeout log_progress fuel
            (elapsed + min 10 (timeout - elapsed))
            (if log_progress ∧ 30 ≤ elapsed - last_check then elapsed
              else last_check) with _ | p
        · rw [hrec] at h
          exact absurd h (by simp)
        · obtain ⟨out', polls'⟩ := p
          rw [hrec] at h
          simp only [Option.some.injEq, Prod.mk.injEq] at h
          obtain ⟨rfl, rfl⟩ := h
          intro l hl
          rcases List.mem_append.mp hl with hpro | hmem
          · by_cases hc : log_progress ∧ 30 ≤ elapsed - last_check
            · rw [if_pos hc] at hpro
              simp only [List.mem_singleton] at hpro
              subst hpro
              rfl
            · rw [if_neg hc] at hpro
              simp at hpro
          · exact ih _ _ _ _ hrec l hmem
      · rw [if_neg hrem] at h
        simp only [Option.some.injEq, Prod.mk.injEq] at h
        obtain ⟨rfl, rfl⟩ := h
        intro l hl
        rcases List.mem_append.mp hl with hpro | hmem
        · by_cases hc : log_progress ∧ 30 ≤ elapsed - last_check
          · rw [if_pos hc] at hpro
            simp only [List.mem_singleton] at hpro
            subst hpro
            rfl
          · rw [if_neg hc] at hpro
            simp at hpro
        · simp only [List.mem_singleton] at hmem
          subst hmem
          rfl

lemma timeout_le_ten_mul_fuel (timeout : ℚ) :
    timeout ≤ 10 * (((⌈timeout⌉).toNat : ℚ)) := by
  rcases le_or_lt timeout 0 with h | h
  · have h0 : (0 : ℚ) ≤ 10 * (((⌈timeout⌉).toNat : ℚ)) := by positivity
    linarith
  · have h1 : timeout ≤ ((⌈timeout⌉ : ℤ) : ℚ) := Int.le_ceil timeout
    have h2 : ((⌈timeout⌉ : ℤ) : ℚ) ≤ (((⌈timeout⌉).toNat : ℤ) : ℚ) := by
      exact_mod_cast Int.self_le_toNat _
    push_cast at h2
    have h3 : (0 : ℚ) ≤ (((⌈timeout⌉).toNat : ℚ)) := by positivity
    linarith

lemma wait_for_task_eq_some (fetch : ℚ → TaskStatus) (task_id : String)
    (timeout : ℚ) (log_progress : Bool) :
    ∃ out polls,
      wait_for_task fetch task_id timeout log_progress = some (out, polls) := by
  have h := waitLoop_isSome fetch task_id timeout log_progress
    ((⌈timeout⌉).toNat) 0 0
    (by simpa using timeout_le_ten_mul_fuel timeout)
  rw [Option.isSome_iff_exists] at h
  obtain ⟨⟨out, polls⟩, hout⟩ := h
  exact ⟨out, polls, hout⟩

lemma list_mapM_option_some {α β : Type} (f : α → Option β) :
    ∀ l : List α, (∀ a ∈ l, ∃ b, f a = some b) →
      ∃ bs : List β, l.mapM f = some bs := by
  intro l
  induction l with
  | nil => intro _; exact ⟨[], rfl⟩
  | cons a l ih =>
    intro h
    obtain ⟨b, hb⟩ := h a (List.mem_cons_self a l)
    obtain ⟨bs, hbs⟩ := ih (fun x hx => h x (List.mem_cons_of_mem a hx))
    refine ⟨b :: bs, ?_⟩
    rw [List.mapM_cons, hb, hbs]
    rfl

lemma jsonGet_eq_some_of_nodup :
    ∀ (l : List (String × String)) (k v : String),
      (l.map Prod.fst).Nodup → (k, v) ∈ l → jsonGet l k = some v := by
  intro l
  induction l with
  | nil =>
    intro k v _ hmem
    simp at hmem
  | cons kv l ih =>
    intro k v hnd hmem
    obtain ⟨k1, v1⟩ := kv
    rw [List.map_cons] at hnd
    have hnd1 := List.nodup_cons.mp hnd
    rcases List.mem_cons.mp hmem with heq | hmem'
    · simp only [Prod.mk.injEq] at heq
      obtain ⟨rfl, rfl⟩ := heq
      simp [jsonGet, List.find?]
    · have hne : (k1 == k) = false := by
        rw [beq_eq_false_iff_ne]
        intro hEq
        subst hEq
        exact hnd1.1 (List.mem_map.mpr ⟨(k1, v), hmem', rfl⟩)
      have hfind : List.find? (fun kv => kv.1 == k) ((k1, v1) :: l) =
          List.find? (fun kv => kv.1 == k) l := by
        rw [List.find?_cons_of_neg]
        simp [hne]
      simp only [jsonGet, hfind]
      exact ih k v hnd1.2 hmem'

/-- A status oracle for a task that stays RUNNING forever. -/
def runningFetch : ℚ → TaskStatus :=
  fun _ => { state := TaskState.RUNNING, error_message := none }

/-- A status oracle for a task already COMPLETED with no error message. -/
def completedFetch : ℚ → TaskStatus :=
  fun _ => { state := TaskState.COMPLETED, error_message := none }

lemma RUNNING_not_finished : TaskState.RUNNING ∉ TASK_FINISHED_STATES := by
  simp [TASK_FINISHED_STATES]

lemma COMPLETED_finished : TaskState.COMPLETED ∈ TASK_FINISHED_STATES := by
  simp [TASK_FINISHED_STATES]

set_option maxRecDepth 8000

/-- C1: counterexample to the claim as stated. For timeout `-20` the wait
terminates immediately and reports an elapsed time of `0` seconds, but the
claimed bound `timeout + 10 = -10` is negative, so the reported elapsed time
is NOT at most `timeout + 10`: the claim fails for timeouts below `-10`. -/
theorem wait_for_task_elapsed_bound_fails_at_negative_timeout :
    wait_for_task runningFetch "t" (-20) true =
      some ([OutputLine.timeoutLine "t" 0], [0]) ∧
    ¬ ((0 : ℚ) ≤ -20 + 10) := by
  constructor
  · norm_num [wait_for_task, fuelFor, waitLoop, runningFetch,
      RUNNING_not_finished]
  · norm_num

/-- C1 (amended): for every timeout value the single-task wait terminates
(the loop returns after finitely many polls for every status oracle), and
every elapsed time it reports — in particular the one of the final
completion or timeout report — is at most `max timeout 0 + 10` seconds:
in this timing model, where time advances only by the sleeps
`min(10, remaining)` and the loop exits as soon as `remaining` is not
positive, the elapsed clock never even passes `max timeout 0`. -/
theorem wait_for_task_terminates_elapsed_bound (fetch : ℚ → TaskStatus)
    (task_id : String) (timeout : ℚ) (log_progress : Bool) :
    ∃ out polls,
      wait_for_task fetch task_id timeout log_progress = some (out, polls) ∧
      ∀ l ∈ out, ∀ x, lineTime l = some x → x ≤ max timeout 0 + 10 := by
  obtain ⟨out, polls, hout⟩ :=
    wait_for_task_eq_some fetch task_id timeout log_progress
  refine ⟨out, polls, hout, ?_⟩
  intro l hl x hx
  have hb := waitLoop_time_bound fetch task_id timeout log_progress
    (fuelFor timeout) 0 0 out polls hout l hl x hx
  have h2 := hb.2
  rw [max_comm] at h2
  linarith

/-- Witness for the C1 theorem at a concrete oracle and timeout. -/
theorem wait_for_task_terminates_elapsed_bound_witness :
    ∃ out polls,
      wait_for_task runningFetch "w1" 25 true = some (out, polls) ∧
      ∀ l ∈ out, ∀ x, lineTime l = some x → x ≤ max 25 0 + 10 :=
  wait_for_task_terminates_elapsed_bound runningFetch "w1" 25 true

/-- C2: with a timeout of zero or negative, the wait performs exactly one
status fetch (the poll list is `[0]`, so no sleep happened and no second
fetch), and when that status is not terminal the entire output is the
single timeout report at elapsed time `0`. -/
theorem wait_for_task_zero_timeout_single_poll (fetch : ℚ → TaskStatus)
    (task_id : String) (log_progress : Bool) (timeout : ℚ)
    (ht : timeout ≤ 0) :
    (∃ out, wait_for_task fetch task_id timeout log_progress =
      some (out, [0])) ∧
    ((fetch 0).state ∉ TASK_FINISHED_STATES →
      wait_for_task fetch task_id timeout log_progress =
        some ([OutputLine.timeoutLine task_id 0], [0])) := by
  have hfuel : fuelFor timeout = ((⌈timeout⌉).toNat + 1) + 1 := rfl
  have hrem : ¬ (0 < timeout - 0) := by
    rw [sub_zero]
    exact not_lt.mpr ht
  have hnc : ¬ (log_progress ∧ 30 ≤ (0 : ℚ) - 0) := by
    rintro ⟨-, hcc⟩
    norm_num at hcc
  constructor
  · by_cases hterm : (fetch 0).state ∈ TASK_FINISHED_STATES
    · refine ⟨OutputLine.completion task_id (fetch 0).state 0 ::
        (match (fetch 0).error_message with
          | some msg =>
            if msg != "" then [OutputLine.errorLine msg] else []
          | none => []), ?_⟩
      unfold wait_for_task
      rw [hfuel, waitLoop_succ, if_pos hterm]
    · refine ⟨[OutputLine.timeoutLine task_id 0], ?_⟩
      unfold wait_for_task
      rw [hfuel, waitLoop_succ, if_neg hterm, if_neg hrem, if_neg hnc]
      rfl
  · intro hterm
    unfold wait_for_task
    rw [hfuel, waitLoop_succ, if_neg hterm, if_neg hrem, if_neg hnc]
    rfl

/-- Witness for the C2 theorem: timeout `0` on an always-RUNNING task. -/
theorem wait_for_task_zero_timeout_single_poll_witness :
    wait_for_task runningFetch "t0" 0 true =
      some ([OutputLine.timeoutLine "t0" 0], [0]) :=
  (wait_for_task_zero_timeout_single_poll runningFetch "t0" true 0
    (by norm_num)).2 (by simp [runningFetch, TASK_FINISHED_STATES])

/-- Output status oracle for the C3 counterexample: a task COMPLETED from
the start whose status carries the empty string as `error_message`. -/
def completedEmptyErrFetch : ℚ → TaskStatus :=
  fun _ => { state := TaskState.COMPLETED, error_message := some "" }

/-- Error lines of the single-task waiter. -/
def isErrorLine : OutputLine → Bool
  | OutputLine.errorLine _ => true
  | _ => false

/-- C3: counterexample to the claim as stated. A terminal status that
carries an error message — the empty string — produces a completion report
with NO error line: `if error_message:` (utils.py line 113) is Python
truthiness, so the claimed "error line if and only if the status carries
an error message" fails at a present-but-empty message. -/
theorem wait_for_task_error_line_fails_at_empty_message :
    wait_for_task completedEmptyErrFetch "t" 5 true =
      some ([OutputLine.completion "t" TaskState.COMPLETED 0], [0]) ∧
    (completedEmptyErrFetch 0).error_message = some "" ∧
    ∀ l ∈ [OutputLine.completion "t" TaskState.COMPLETED 0],
      isErrorLine l = false := by
  refine ⟨?_, rfl, ?_⟩
  · norm_num [wait_for_task, fuelFor, waitLoop, completedEmptyErrFetch,
      COMPLETED_finished]
  · intro l hl
    simp only [List.mem_singleton] at hl
    subst hl
    rfl

/-- C3 (amended): every single-task wait (all fetches succeed, since the
status oracle is total) terminates normally — no exception is modelled
because none is raised on these paths — and its output is some progress
lines followed by exactly one of the two final reports: either the
completion report of a fetched terminal state (completion line plus an
error line exactly when the status carries a non-empty error message,
FAILED included), or the timeout report; never both. -/
theorem wait_for_task_exit_report_dichotomy (fetch : ℚ → TaskStatus)
    (task_id : String) (timeout : ℚ) (log_progress : Bool) :
    ∃ out polls pro fin,
      wait_for_task fetch task_id timeout log_progress = some (out, polls) ∧
      out = pro ++ fin ∧
      (∀ l ∈ pro, isProgressLine l = true) ∧
      (((∃ e, (fetch e).state ∈ TASK_FINISHED_STATES ∧
            fin = completionReport fetch task_id e) ∧
          ¬ (∃ e, fin = [OutputLine.timeoutLine task_id e])) ∨
        ((∃ e, fin = [OutputLine.timeoutLine task_id e]) ∧
          ¬ (∃ e, (fetch e).state ∈ TASK_FINISHED_STATES ∧
            fin = completionReport fetch task_id e))) := by
  obtain ⟨out, polls, hout⟩ :=
    wait_for_task_eq_some fetch task_id timeout log_progress
  obtain ⟨pro, fin, rfl, hpro, hfin⟩ := waitLoop_shape fetch task_id timeout
    log_progress (fuelFor timeout) 0 0 _ _ hout
  refine ⟨_, _, pro, fin, hout, rfl, hpro, ?_⟩
  rcases hfin with ⟨e, he, hfe⟩ | ⟨e, hfe⟩
  · left
    refine ⟨⟨e, he, hfe⟩, ?_⟩
    rintro ⟨e', he'⟩
    rw [hfe] at he'
    simp [completionReport] at he'
  · right
    refine ⟨⟨e, hfe⟩, ?_⟩
    rintro ⟨e', _, hfe'⟩
    rw [hfe] at hfe'
    simp [completionReport] at hfe'

/-- Witness for the C3 theorem at a concrete oracle and timeout. -/
theorem wait_for_task_exit_report_dichotomy_witness :
    ∃ out polls pro fin,
      wait_for_task completedFetch "w3" 5 true = some (out, polls) ∧
      out = pro ++ fin ∧
      (∀ l ∈ pro, isProgressLine l = true) ∧
      (((∃ e, (completedFetch e).state ∈ TASK_FINISHED_STATES ∧
            fin = completionReport completedFetch "w3" e) ∧
          ¬ (∃ e, fin = [OutputLine.timeoutLine "w3" e])) ∨
        ((∃ e, fin = [OutputLine.timeoutLine "w3" e]) ∧
          ¬ (∃ e, (completedFetch e).state ∈ TASK_FINISHED_STATES ∧
            fin = completionReport completedFetch "w3" e))) :=
  wait_for_task_exit_report_dichotomy completedFetch "w3" 5 true

/-- C4: in a single-task wait with log-progress disabled no progress line is
emitted; with log-progress enabled, the progress times are exactly the
non-terminal poll times filtered by the 30-second cadence (a progress line
is emitted at a poll exactly when at least 30 seconds elapsed since the
last progress log — initially since the start — and emitting resets the
clock), so consecutive progress lines are at least 30 seconds apart. -/
theorem wait_for_task_progress_cadence (fetch : ℚ → TaskStatus)
    (task_id : String) (timeout : ℚ) (log_progress : Bool)
    (out : List OutputLine) (polls : List ℚ)
    (h : wait_for_task fetch task_id timeout log_progress = some (out, polls)) :
    (log_progress = false → progressTimes out = []) ∧
    (log_progress = true →
      progressTimes out =
        progressFilter 0 (polls.filter
          (fun t => !(decide ((fetch t).state ∈ TASK_FINISHED_STATES)))) ∧
      sep30 0 (progressTimes out) = true) := by
  constructor
  · intro hlp
    subst hlp
    exact waitLoop_progress_off fetch task_id timeout (fuelFor timeout)
      0 0 out polls h
  · intro hlp
    subst hlp
    have hpt := waitLoop_progressTimes fetch task_id timeout (fuelFor timeout)
      0 0 out polls h
    refine ⟨hpt, ?_⟩
    rw [hpt]
    exact sep30_progressFilter _ 0

/-- Witness for the C4 theorem: a 35-second wait on an always-RUNNING task
logs exactly one progress line, at 30 seconds. -/
theorem wait_for_task_progress_cadence_witness :
    wait_for_task runningFetch "t" 35 true =
      some ([OutputLine.progress "t" TaskState.RUNNING 30,
             OutputLine.timeoutLine "t" 35], [0, 10, 20, 30, 35]) ∧
    progressTimes [OutputLine.progress "t" TaskState.RUNNING 30,
        OutputLine.timeoutLine "t" 35] =
      progressFilter 0 (([0, 10, 20, 30, 35] : List ℚ).filter
        (fun t => !(decide ((runningFetch t).state ∈ TASK_FINISHED_STATES)))) ∧
    sep30 0 (progressTimes [OutputLine.progress "t" TaskState.RUNNING 30,
        OutputLine.timeoutLine "t" 35]) = true := by
  have h : wait_for_task runningFetch "t" 35 true =
      some ([OutputLine.progress "t" TaskState.RUNNING 30,
             OutputLine.timeoutLine "t" 35], [0, 10, 20, 30, 35]) := by
    norm_num [wait_for_task, fuelFor, waitLoop, runningFetch,
      RUNNING_not_finished]
  have h2 := (wait_for_task_progress_cadence runningFetch "t" 35 true _ _ h).2
    rfl
  exact ⟨h, h2.1, h2.2⟩

lemma FAILED_finished : TaskState.FAILED ∈ TASK_FINISHED_STATES := by
  simp [TASK_FINISHED_STATES]

lemma CANCELLED_finished : TaskState.CANCELLED ∈ TASK_FINISHED_STATES := by
  simp [TASK_FINISHED_STATES]

/-- The summary block printed by `wait_for_tasks` (utils.py lines 151-155)
for a given bulk status list: the header print plus the four counter
lines, the incomplete counter being
`len(status_list) - completed - failed - cancelled`. -/
def summaryBlock (status_list : List TaskStatus) : List OutputLine :=
  [OutputLine.summaryHeader,
   OutputLine.summaryCompleted (countState status_list TaskState.COMPLETED),
   OutputLine.summaryFailed (countState status_list TaskState.FAILED),
   OutputLine.summaryCancelled (countState status_list TaskState.CANCELLED),
   OutputLine.summaryIncomplete ((status_list.length : Int)
     - countState status_list TaskState.COMPLETED
     - countState status_list TaskState.FAILED
     - countState status_list TaskState.CANCELLED)]

lemma wait_for_tasks_cons_cons (fetchOf : String → ℚ → TaskStatus)
    (getTaskStatusList : List String → List TaskStatus) (a b : String)
    (rest : List String) (timeout : ℚ) (log_progress : Bool) :
    wait_for_tasks fetchOf getTaskStatusList (a :: b :: rest) timeout
        log_progress =
      ((a :: b :: rest).mapM (fun task_id =>
          (wait_for_task (fetchOf task_id) task_id timeout log_progress).map
            Prod.fst)).map
        (fun worker_outputs =>
          worker_outputs.flatten ++
            summaryBlock (getTaskStatusList (a :: b :: rest))) :=
  rfl

/-- C5: for at least two task ids, after all per-task waiters finish the
multi-task waiter makes one bulk status fetch on the full identifier list
and emits the summary block, whose incomplete counter is by construction
`total - completed - failed - cancelled`; when additionally the bulk
statuses are all non-terminal (one status per id), the three terminal
counters are `0` and the incomplete counter equals the number of task
ids. -/
theorem wait_for_tasks_bulk_summary (fetchOf : String → ℚ → TaskStatus)
    (getTaskStatusList : List String → List TaskStatus)
    (task_id_list : List String) (timeout : ℚ) (log_progress : Bool)
    (h2 : 2 ≤ task_id_list.length) :
    ∃ worker_outputs : List (List OutputLine),
      wait_for_tasks fetchOf getTaskStatusList task_id_list timeout
          log_progress =
        some (worker_outputs.flatten ++
          summaryBlock (getTaskStatusList task_id_list)) ∧
      ((∀ s ∈ getTaskStatusList task_id_list,
          s.state ∉ TASK_FINISHED_STATES) →
        (getTaskStatusList task_id_list).length = task_id_list.length →
        countState (getTaskStatusList task_id_list) TaskState.COMPLETED = 0 ∧
        countState (getTaskStatusList task_id_list) TaskState.FAILED = 0 ∧
        countState (getTaskStatusList task_id_list) TaskState.CANCELLED = 0 ∧
        ((getTaskStatusList task_id_list).length : Int)
            - countState (getTaskStatusList task_id_list) TaskState.COMPLETED
            - countState (getTaskStatusList task_id_list) TaskState.FAILED
            - countState (getTaskStatusList task_id_list) TaskState.CANCELLED
          = (task_id_list.length : Int)) := by
  rcases task_id_list with _ | ⟨a, _ | ⟨b, rest⟩⟩
  · norm_num at h2
  · norm_num at h2
  · have hall : ∀ id ∈ (a :: b :: rest), ∃ wout,
        (wait_for_task (fetchOf id) id timeout log_progress).map Prod.fst =
          some wout := by
      intro id _
      obtain ⟨out, polls, hw⟩ :=
        wait_for_task_eq_some (fetchOf id) id timeout log_progress
      exact ⟨out, by rw [hw]; rfl⟩
    obtain ⟨bs, hbs⟩ := list_mapM_option_some _ _ hall
    refine ⟨bs, ?_, ?_⟩
    · rw [wait_for_tasks_cons_cons, hbs]
      rfl
    · intro hnt hlen
      have hC : countState (getTaskStatusList (a :: b :: rest))
          TaskState.COMPLETED = 0 := by
        rw [countState, List.countP_eq_zero]
        intro s hs
        simp only [beq_iff_eq]
        intro hEq
        exact hnt s hs (by rw [hEq]; exact COMPLETED_finished)
      have hF : countState (getTaskStatusList (a :: b :: rest))
          TaskState.FAILED = 0 := by
        rw [countState, List.countP_eq_zero]
        intro s hs
        simp only [beq_iff_eq]
        intro hEq
        exact hnt s hs (by rw [hEq]; exact FAILED_finished)
      have hK : countState (getTaskStatusList (a :: b :: rest))
          TaskState.CANCELLED = 0 := by
        rw [countState, List.countP_eq_zero]
        intro s hs
        simp only [beq_iff_eq]
        intro hEq
        exact hnt s hs (by rw [hEq]; exact CANCELLED_finished)
      refine ⟨hC, hF, hK, ?_⟩
      rw [hC, hF, hK, hlen]
      norm_num

/-- Witness for the C5 theorem: two always-RUNNING tasks, all bulk statuses
non-terminal, so the summary counts 0/0/0 terminal and 2 incomplete. -/
theorem wait_for_tasks_bulk_summary_witness :
    countState (["a", "b"].map
        (fun _ => ({ state := TaskState.RUNNING, error_message := none } :
          TaskStatus))) TaskState.COMPLETED = 0 ∧
    countState (["a", "b"].map
        (fun _ => ({ state := TaskState.RUNNING, error_message := none } :
          TaskStatus))) TaskState.FAILED = 0 ∧
    countState (["a", "b"].map
        (fun _ => ({ state := TaskState.RUNNING, error_message := none } :
          TaskStatus))) TaskState.CANCELLED = 0 ∧
    ((["a", "b"].map
        (fun _ => ({ state := TaskState.RUNNING, error_message := none } :
          TaskStatus))).length : Int)
        - countState (["a", "b"].map
            (fun _ => ({ state := TaskState.RUNNING, error_message := none } :
              TaskStatus))) TaskState.COMPLETED
        - countState (["a", "b"].map
            (fun _ => ({ state := TaskState.RUNNING, error_message := none } :
              TaskStatus))) TaskState.FAILED
        - countState (["a", "b"].map
            (fun _ => ({ state := TaskState.RUNNING, error_message := none } :
              TaskStatus))) TaskState.CANCELLED
      = ((["a", "b"] : List String).length : Int) := by
  obtain ⟨wouts, hmain, hcond⟩ := wait_for_tasks_bulk_summary
    (fun _ => runningFetch)
    (fun ids => ids.map
      (fun _ => ({ state := TaskState.RUNNING, error_message := none } :
        TaskStatus)))
    ["a", "b"] 5 false (by norm_num)
  exact hcond
    (by
      intro s hs
      simp only [List.mem_map] at hs
      obtain ⟨_, _, rfl⟩ := hs
      exact RUNNING_not_finished)
    (by simp)

/-- C6: on a one-element identifier list the multi-task waiter is exactly
the single-task waiter called with the same task id, timeout and
log-progress flag (same emitted reports), and its output contains no
summary line (and, by the same equation, involves no bulk status fetch). -/
theorem wait_for_tasks_singleton_delegates (fetchOf : String → ℚ → TaskStatus)
    (getTaskStatusList : List String → List TaskStatus) (task_id : String)
    (timeout : ℚ) (log_progress : Bool) :
    wait_for_tasks fetchOf getTaskStatusList [task_id] timeout log_progress =
      (wait_for_task (fetchOf task_id) task_id timeout log_progress).map
        Prod.fst ∧
    ∀ out,
      wait_for_tasks fetchOf getTaskStatusList [task_id] timeout log_progress =
        some out →
      ∀ l ∈ out, isSummaryLine l = false := by
  refine ⟨rfl, ?_⟩
  intro out hout l hl
  have hout' : (wait_for_task (fetchOf task_id) task_id timeout
      log_progress).map Prod.fst = some out := hout
  rcases hw : wait_for_task (fetchOf task_id) task_id timeout log_progress
    with _ | ⟨out', polls'⟩
  · rw [hw] at hout'
    simp at hout'
  · rw [hw] at hout'
    simp only [Option.map_some'] at hout'
    rw [Option.some.injEq] at hout'
    subst hout'
    exact waitLoop_no_summary (fetchOf task_id) task_id timeout log_progress
      (fuelFor timeout) 0 0 out' polls' hw l hl

/-- Witness for the C6 theorem: one already-COMPLETED task. -/
theorem wait_for_tasks_singleton_delegates_witness :
    wait_for_tasks (fun _ => completedFetch) (fun _ => []) ["x"] 0 false =
      (wait_for_task completedFetch "x" 0 false).map Prod.fst ∧
    ∀ l ∈ [OutputLine.completion "x" TaskState.COMPLETED 0],
      isSummaryLine l = false := by
  have h := wait_for_tasks_singleton_delegates (fun _ => completedFetch)
    (fun _ => []) "x" 0 false
  refine ⟨h.1, ?_⟩
  have hrun : wait_for_tasks (fun _ => completedFetch) (fun _ => []) ["x"] 0
      false = some [OutputLine.completion "x" TaskState.COMPLETED 0] := by
    rw [h.1]
    norm_num [wait_for_task, fuelFor, waitLoop, completedFetch,
      COMPLETED_finished]
  exact h.2 _ hrun

/-- File system fixture: the environment variable is set to `/env/path`, no
file exists. -/
def fsWithEnvPath : FileSystem :=
  { environ := fun k => if k == EE_CONFIG_FILE then some "/env/path" else none
    pathExists := fun _ => false
    readJson := fun _ => []
    homedir := "/home/user" }

/-- C7: counterexample to the claim as stated. The explicit path argument
`""` is given, yet the resolved config file path is the
environment-variable path, not the explicit argument: `__init__` tests
Python truthiness (`if not config_file:`), so an explicitly given empty
path is ignored. -/
theorem config_file_resolution_fails_for_empty_explicit_path :
    (CommandLineConfig.init fsWithEnvPath (some "")).config_file =
      "/env/path" ∧
    "/env/path" ≠ ("" : String) := by
  constructor
  · simp [CommandLineConfig.init, CommandLineConfig.mkFrom, fsWithEnvPath,
      EE_CONFIG_FILE]
  · simp

/-- C7 (amended): configuration load resolves the config file path as: the
explicit path argument when given and non-empty; otherwise the path named
by the environment variable when set, else the fixed default path under
the home directory; and when the resolved file does not exist every
parameter takes its built-in default (`url` the production endpoint, the
others null) — no error is raised (the load is a total function). -/
theorem config_file_resolution (fs : FileSystem)
    (config_file_arg : Option String) :
    (∀ p, config_file_arg = some p → p ≠ "" →
      (CommandLineConfig.init fs config_file_arg).config_file = p) ∧
    ((config_file_arg = none ∨ config_file_arg = some "") →
      (CommandLineConfig.init fs config_file_arg).config_file =
        (fs.environ EE_CONFIG_FILE).getD (DEFAULT_EE_CONFIG_FILE fs.homedir)) ∧
    (fs.pathExists (CommandLineConfig.init fs config_file_arg).config_file =
        false →
      (CommandLineConfig.init fs config_file_arg).url =
        some "https://earthengine.googleapis.com" ∧
      (CommandLineConfig.init fs config_file_arg).account = none ∧
      (CommandLineConfig.init fs config_file_arg).private_key = none ∧
      (CommandLineConfig.init fs config_file_arg).refresh_token = none) := by
  refine ⟨?_, ?_, ?_⟩
  · rintro p rfl hp
    simp [CommandLineConfig.init, CommandLineConfig.mkFrom, hp]
  · rintro (rfl | rfl) <;>
      simp [CommandLineConfig.init, CommandLineConfig.mkFrom]
  · intro hex
    simp only [CommandLineConfig.init, CommandLineConfig.mkFrom] at hex ⊢
    rw [if_neg (by simp [hex])]
    simp [configGet, jsonGet]

/-- Witness for the C7 theorem: a non-empty explicit path wins, and with no
file present all parameters are the built-in defaults. -/
theorem config_file_resolution_witness :
    (CommandLineConfig.init fsWithEnvPath (some "/explicit")).config_file =
      "/explicit" ∧
    (CommandLineConfig.init fsWithEnvPath none).config_file = "/env/path" ∧
    (CommandLineConfig.init fsWithEnvPath none).url =
      some "https://earthengine.googleapis.com" ∧
    (CommandLineConfig.init fsWithEnvPath none).account = none := by
  have h1 := (config_file_resolution fsWithEnvPath (some "/explicit")).1
    "/explicit" rfl (by simp)
  have h2 := (config_file_resolution fsWithEnvPath none).2.1 (Or.inl rfl)
  have h3 := (config_file_resolution fsWithEnvPath none).2.2 (by
    simp [fsWithEnvPath])
  refine ⟨h1, ?_, h3.1, h3.2.1⟩
  rw [h2]
  simp [fsWithEnvPath, EE_CONFIG_FILE]

/-- Config fixture for C8: both `account` and `private_key` are non-null,
but `account` is the empty string. -/
def configEmptyAccount : CommandLineConfig :=
  { config_file := "f"
    url := some "https://earthengine.googleapis.com"
    account := some ""
    private_key := some "key-data"
    refresh_token := none }

/-- Credential strategies of `ee_init` discriminated: account/key. -/
def isServiceAccountCred : Credentials → Bool
  | Credentials.serviceAccount _ _ => true
  | _ => false

/-- C8: counterexample to the claim as stated. Both the account identifier
and the private key are non-null, yet `ee_init` does NOT select account/key
credentials (it falls through to the persistent sentinel): the code tests
Python truthiness, so an empty-string account does not count. -/
theorem ee_init_fails_for_empty_account :
    configEmptyAccount.account ≠ none ∧
    configEmptyAccount.private_key ≠ none ∧
    isServiceAccountCred
      (configEmptyAccount.ee_init "client-id" "client-secret").1 = false ∧
    (configEmptyAccount.ee_init "client-id" "client-secret").1 =
      Credentials.persistent := by
  refine ⟨by simp [configEmptyAccount], by simp [configEmptyAccount], ?_, ?_⟩ <;>
    simp [CommandLineConfig.ee_init, truthy, configEmptyAccount,
      isServiceAccountCred]

/-- C8 (amended): `ee_init` selects exactly one credential strategy, by
priority on truthy (non-null and non-empty) fields: account/key credentials
when both the account and the private key are truthy; else token-refresh
credentials — with the fixed token endpoint and the fixed client
id/secret — when the refresh token is truthy; else the persistent local
sentinel. -/
theorem ee_init_strategy_selection (c : CommandLineConfig)
    (CLIENT_ID CLIENT_SECRET : String) :
    (truthy c.account = true → truthy c.private_key = true →
      (c.ee_init CLIENT_ID CLIENT_SECRET).1 =
        Credentials.serviceAccount c.account c.private_key) ∧
    ((truthy c.account && truthy c.private_key) = false →
      truthy c.refresh_token = true →
      (c.ee_init CLIENT_ID CLIENT_SECRET).1 =
        Credentials.oauth2 none CLIENT_ID CLIENT_SECRET c.refresh_token none
          "https://accounts.google.com/o/oauth2/token" none) ∧
    ((truthy c.account && truthy c.private_key) = false →
      truthy c.refresh_token = false →
      (c.ee_init CLIENT_ID CLIENT_SECRET).1 = Credentials.persistent) := by
  refine ⟨?_, ?_, ?_⟩ <;> intro h1 h2 <;>
    simp [CommandLineConfig.ee_init, h1, h2]

/-- Config fixture: service-account credentials present. -/
def configServiceAcct : CommandLineConfig :=
  { config_file := "f"
    url := some "https://earthengine.googleapis.com"
    account := some "a@b"
    private_key := some "pk"
    refresh_token := some "rt" }

/-- Config fixture: only a refresh token present. -/
def configRefresh : CommandLineConfig :=
  { config_file := "f"
    url := some "https://earthengine.googleapis.com"
    account := none
    private_key := none
    refresh_token := some "rt" }

/-- Config fixture: no credentials at all. -/
def configBare : CommandLineConfig :=
  { config_file := "f"
    url := some "https://earthengine.googleapis.com"
    account := none
    private_key := none
    refresh_token := none }

/-- Witness for the C8 theorem: each of the three strategies is reached. -/
theorem ee_init_strategy_selection_witness :
    (configServiceAcct.ee_init "i" "s").1 =
      Credentials.serviceAccount (some "a@b") (some "pk") ∧
    (configRefresh.ee_init "i" "s").1 =
      Credentials.oauth2 none "i" "s" (some "rt") none
        "https://accounts.google.com/o/oauth2/token" none ∧
    (configBare.ee_init "i" "s").1 = Credentials.persistent := by
  refine ⟨?_, ?_, ?_⟩
  · exact (ee_init_strategy_selection configServiceAcct "i" "s").1
      (by simp [configServiceAcct, truthy]) (by simp [configServiceAcct, truthy])
  · exact (ee_init_strategy_selection configRefresh "i" "s").2.1
      (by simp [configRefresh, truthy]) (by simp [configRefresh, truthy])
  · exact (ee_init_strategy_selection configBare "i" "s").2.2
      (by simp [configBare, truthy]) (by simp [configBare, truthy])

/-- C9: save/load round trip. (1) `save` writes exactly the non-null
parameters: a key-value pair is in the written content iff the key is a
`CONFIG_PARAMS` key whose attribute is non-null with that value (the file
is overwritten: the written content is exactly this list). (2) Loading the
file produced by saving `c` yields a configuration with the same non-null
field values as `c`. (3) For a config file holding exactly the four
parameters, saving what was loaded reproduces the same key-value content
up to key ordering. -/
theorem config_save_round_trip :
    (∀ (c : CommandLineConfig) (k v : String),
      (k, v) ∈ c.save ↔
        (k ∈ CONFIG_PARAMS.map Prod.fst ∧ c.getParamAttr k = some v)) ∧
    (∀ (c : CommandLineConfig) (path : String),
      (∀ v, c.url = some v →
        (CommandLineConfig.mkFrom path c.save).url = some v) ∧
      (∀ v, c.account = some v →
        (CommandLineConfig.mkFrom path c.save).account = some v) ∧
      (∀ v, c.private_key = some v →
        (CommandLineConfig.mkFrom path c.save).private_key = some v) ∧
      (∀ v, c.refresh_token = some v →
        (CommandLineConfig.mkFrom path c.save).refresh_token = some v)) ∧
    (∀ (path u a p r : String) (content : ConfigFileContent),
      content.Perm
        [("url", u), ("account", a), ("private_key", p),
         ("refresh_token", r)] →
      (CommandLineConfig.mkFrom path content).save.Perm content) := by
  refine ⟨?_, ?_, ?_⟩
  · intro c k v
    rw [CommandLineConfig.save, List.mem_filterMap]
    constructor
    · rintro ⟨key, hkey, hmap⟩
      rw [Option.map_eq_some'] at hmap
      obtain ⟨w, hw, heq⟩ := hmap
      simp only [Prod.mk.injEq] at heq
      obtain ⟨rfl, rfl⟩ := heq
      exact ⟨hkey, hw⟩
    · rintro ⟨hk, hv⟩
      exact ⟨k, hk, by rw [hv]; rfl⟩
  · intro c path
    refine ⟨?_, ?_, ?_, ?_⟩
    · intro v hv
      simp [CommandLineConfig.save, CONFIG_PARAMS,
        CommandLineConfig.getParamAttr, CommandLineConfig.mkFrom, configGet,
        jsonGet, hv]
    · intro v hv
      rcases hu : c.url with _ | u <;>
        simp [CommandLineConfig.save, CONFIG_PARAMS,
          CommandLineConfig.getParamAttr, CommandLineConfig.mkFrom, configGet,
          jsonGet, hu, hv]
    · intro v hv
      rcases hu : c.url with _ | u <;> rcases ha : c.account with _ | a <;>
        simp [CommandLineConfig.save, CONFIG_PARAMS,
          CommandLineConfig.getParamAttr, CommandLineConfig.mkFrom, configGet,
          jsonGet, hu, ha, hv]
    · intro v hv
      rcases hu : c.url with _ | u <;> rcases ha : c.account with _ | a <;>
        rcases hp : c.private_key with _ | p <;>
        simp [CommandLineConfig.save, CONFIG_PARAMS,
          CommandLineConfig.getParamAttr, CommandLineConfig.mkFrom, configGet,
          jsonGet, hu, ha, hp, hv]
  · intro path u a p r content hperm
    have hbase_nodup : ((([("url", u), ("account", a), ("private_key", p),
        ("refresh_token", r)] : ConfigFileContent).map Prod.fst)).Nodup := by
      simp
    have hnodup : (content.map Prod.fst).Nodup :=
      ((hperm.map Prod.fst).nodup_iff).mpr hbase_nodup
    have hu : jsonGet content "url" = some u :=
      jsonGet_eq_some_of_nodup content "url" u hnodup
        (hperm.mem_iff.mpr (by simp))
    have ha : jsonGet content "account" = some a :=
      jsonGet_eq_some_of_nodup content "account" a hnodup
        (hperm.mem_iff.mpr (by simp))
    have hp : jsonGet content "private_key" = some p :=
      jsonGet_eq_some_of_nodup content "private_key" p hnodup
        (hperm.mem_iff.mpr (by simp))
    have hr : jsonGet content "refresh_token" = some r :=
      jsonGet_eq_some_of_nodup content "refresh_token" r hnodup
        (hperm.mem_iff.mpr (by simp))
    have hload : CommandLineConfig.mkFrom path content =
        { config_file := path, url := some u, account := some a,
          private_key := some p, refresh_token := some r } := by
      simp [CommandLineConfig.mkFrom, configGet, hu, ha, hp, hr]
    rw [hload]
    have hsave : (CommandLineConfig.mk path (some u) (some a) (some p)
          (some r)).save =
        [("url", u), ("account", a), ("private_key", p),
         ("refresh_token", r)] := by
      simp [CommandLineConfig.save, CONFIG_PARAMS,
        CommandLineConfig.getParamAttr]
    rw [hsave]
    exact hperm.symm

/-- Witness for the C9 theorem: a file holding all four parameters loads and
saves back to the same content. -/
theorem config_save_round_trip_witness :
    (CommandLineConfig.mkFrom "f"
      [("url", "u"), ("account", "a"), ("private_key", "p"),
       ("refresh_token", "r")]).save.Perm
      [("url", "u"), ("account", "a"), ("private_key", "p"),
       ("refresh_token", "r")] :=
  config_save_round_trip.2.2 "f" "u" "a" "p" "r" _ (List.Perm.refl _)

/-- C10: configuration load reads only the four `CONFIG_PARAMS` keys — two
file contents agreeing on those four keys load to identical configurations,
so any other key is ignored and never becomes part of the configuration —
and a saved file only ever contains `CONFIG_PARAMS` keys. -/
theorem config_load_reads_only_known_keys :
    (∀ (path : String) (content content' : ConfigFileContent),
      (∀ k, k ∈ CONFIG_PARAMS.map Prod.fst →
        jsonGet content k = jsonGet content' k) →
      CommandLineConfig.mkFrom path content =
        CommandLineConfig.mkFrom path content') ∧
    (∀ (c : CommandLineConfig) (k v : String), (k, v) ∈ c.save →
      k ∈ CONFIG_PARAMS.map Prod.fst) := by
  constructor
  · intro path content content' h
    have hu := h "url" (by simp [CONFIG_PARAMS])
    have ha := h "account" (by simp [CONFIG_PARAMS])
    have hp := h "private_key" (by simp [CONFIG_PARAMS])
    have hr := h "refresh_token" (by simp [CONFIG_PARAMS])
    simp [CommandLineConfig.mkFrom, configGet, hu, ha, hp, hr]
  · intro c k v hmem
    rw [CommandLineConfig.save, List.mem_filterMap] at hmem
    obtain ⟨key, hkey, hmap⟩ := hmem
    rw [Option.map_eq_some'] at hmap
    obtain ⟨w, _, heq⟩ := hmap
    simp only [Prod.mk.injEq] at heq
    obtain ⟨rfl, rfl⟩ := heq
    exact hkey

/-- Witness for the C10 theorem: an unknown key `junk` in the file does not
change the loaded configuration. -/
theorem config_load_reads_only_known_keys_witness :
    CommandLineConfig.mkFrom "f" [("url", "u"), ("junk", "x")] =
      CommandLineConfig.mkFrom "f" [("url", "u")] := by
  refine config_load_reads_only_known_keys.1 "f" _ _ ?_
  intro k hk
  simp only [CONFIG_PARAMS, List.map_cons, List.map_nil, List.mem_cons,
    List.mem_singleton, List.not_mem_nil, or_false] at hk
  rcases hk with rfl | rfl | rfl | rfl <;> rfl
